import Mathlib

/-!
# pyarray: a verification development for `xtensor-python/pyarray.hpp`

Shallow embedding of the `pyarray<T, ExtraFlags>` adapter.

* `size_type` (`std::size_t`) values are natural numbers; every operation that the
  source performs in `size_type` is reduced modulo `2 ^ w`, `w` being the bit width
  of `size_type`.
* A typed pointer `T*` into the wrapped buffer is a natural number counted in
  units of `T`, so that the object it points to is at the byte address `p * sizeof(T)`.
  On the storage iterators, which stay inside the buffer, `p + k` is `p + k`. The cursor
  of a stepper is an integer, because a stepper also retreats. The reference returned by
  `operator()`, where the index values are not checked, is a byte address of the `w`-bit
  address space.
* The members of `pybind11::array`, of the Python/NumPy C API and of the xtensor
  stepper and iterator templates are not defined in `pyarray.hpp`; each of them is
  introduced by a definition whose comment says so.
-/

namespace xt

/-! ## `size_type` arithmetic -/

/-- Addition of two `size_type` values. -/
def size_type.add (w x y : Nat) : Nat := (x + y) % 2 ^ w

/-- Multiplication of two `size_type` values. -/
def size_type.mul (w x y : Nat) : Nat := (x * y) % 2 ^ w

/-- Subtraction of two `size_type` values (two's complement, no trap). -/
def size_type.sub (w x y : Nat) : Nat := (x % 2 ^ w + (2 ^ w - y % 2 ^ w)) % 2 ^ w

/-! ## The wrapped array object (`pybind_array = pybind11::array`) -/

/-- Modelled from the spec: the foreign buffer object behind `pybind11::array`, which
`pyarray.hpp` only includes. It exposes a rank `nd`, the extent array `dimensions`, the
byte-stride array `strides` and the data pointer `data`. -/
structure pybind_array where
  nd : Nat
  dimensions : List Nat
  strides : List Nat
  data : Nat
deriving DecidableEq

/-- Modelled from the spec: `pybind11::array::ndim()`, the rank read live from the object. -/
def pybind_array.ndim (a : pybind_array) : Nat := a.nd

/-- Modelled from the spec: `pybind11::array::shape()`, a pointer to the extent array;
the pointer is represented by the read `shape()[i]`. -/
def pybind_array.shape_at (a : pybind_array) (i : Nat) : Nat := a.dimensions.getD i 0

/-- Modelled from the spec: `pybind11::array::strides()`, a pointer to the byte-stride
array; the pointer is represented by the read `strides()[i]`. -/
def pybind_array.strides_at (a : pybind_array) (i : Nat) : Nat := a.strides.getD i 0

/-- Modelled from the spec: `pybind11::array::size()`, the total element count, the
product of the extents accumulated in `size_type`. -/
def pybind_array.size (w : Nat) (a : pybind_array) : Nat :=
  ((List.range a.ndim).map a.shape_at).foldl (size_type.mul w) (1 % 2 ^ w)

/-- Modelled from the spec: `pybind11::array::data()`, the (const) data pointer. -/
def pybind_array.data_ptr (a : pybind_array) : Nat := a.data

/-- Modelled from the spec: `pybind11::array::mutable_data()`, the data pointer. -/
def pybind_array.mutable_data (a : pybind_array) : Nat := a.data

/-- Modelled from the spec: the errors raised through the host runtime's error channel;
the dimension-check error carries its message, the requested index count and the rank. -/
inductive py_error where
  | dim_check (msg : String) (dim ndim : Nat)
deriving DecidableEq

/-- Modelled from the spec: `pybind11::array::fail_dim_check(dim, msg)`, the shared
dimension-check facility; it always raises, reporting `dim` and the actual rank. -/
def pybind_array.fail_dim_check (a : pybind_array) (dim : Nat) (msg : String) :
    Except py_error Unit :=
  Except.error (py_error.dim_check msg dim a.ndim)

/-- Modelled from the spec: `pybind11::array::get_byte_offset<dim>(i, rest...)`, the
standard index-to-offset routine: `i * strides()[dim] + get_byte_offset<dim + 1>(rest...)`,
computed in `size_type`; the empty pack gives `0`. -/
def pybind_array.get_byte_offset (w : Nat) (a : pybind_array) : Nat → List Nat → Nat
  | _, [] => 0
  | dim, i :: rest =>
    size_type.add w (size_type.mul w i (a.strides_at dim))
      (pybind_array.get_byte_offset w a (dim + 1) rest)

/-! ## `pyarray<T, ExtraFlags>` -/

/-- The adapter: the `pybind_array` base sub-object together with the two template
parameters that the code reads, `sizeof(T)` and `ExtraFlags`. -/
structure pyarray where
  base : pybind_array
  sizeof_value_type : Nat
  ExtraFlags : Nat
deriving DecidableEq

/-- `pyarray::dimension()`. -/
def pyarray.dimension (a : pyarray) : Nat := a.base.ndim

/-- `pyarray::itemsize()`. -/
def pyarray.itemsize (a : pyarray) : Nat := a.sizeof_value_type

/-- The byte address of the object that the `T*` value `p` points to. -/
def pyarray.address (a : pyarray) (p : Nat) : Nat := p * a.itemsize

/-- The addition `p + k` of a `size_type` value `k` to a `T*` value `p`, with no
assumption that the result stays inside the buffer: the byte address of the result, which
is `k * sizeof(T)` bytes past the byte address of `p` in the `w`-bit address space. -/
def pyarray.pointer_add (w : Nat) (a : pyarray) (p k : Nat) : Nat :=
  (a.address p + k * a.itemsize) % 2 ^ w

/-- `pyarray::operator()(args...)`, mutable overload: the byte address of the object the
returned reference denotes; `args` are the indices as `size_type` values. -/
def pyarray.operator_call (w : Nat) (a : pyarray) (args : List Nat) : Except py_error Nat := do
  if args.length ≠ a.dimension then
    a.base.fail_dim_check args.length "index dimension mismatch"
  pure (a.pointer_add w a.base.mutable_data (a.base.get_byte_offset w 0 args / a.itemsize))

/-- `pyarray::operator()(args...) const`: the byte address of the object the returned
reference denotes. -/
def pyarray.operator_call_const (w : Nat) (a : pyarray) (args : List Nat) :
    Except py_error Nat := do
  if args.length ≠ a.dimension then
    a.base.fail_dim_check args.length "index dimension mismatch"
  pure (a.pointer_add w a.base.data_ptr (a.base.get_byte_offset w 0 args / a.itemsize))

/-- `pyarray::shape()`: a vector of `dimension()` entries filled by copying
`shape()[0 .. dimension())`. -/
def pyarray.shape (a : pyarray) : List Nat :=
  (List.range a.dimension).map a.base.shape_at

/-- The wrapped object holds the extents `S`: its rank is `S.size()`, its extent array is
`S`, and (as for every NumPy array object) its stride array has one entry per dimension. -/
def pyarray.wraps (a : pyarray) (S : List Nat) : Prop :=
  a.base.nd = S.length ∧ a.base.dimensions = S ∧ a.base.strides.length = a.base.nd

instance (a : pyarray) (S : List Nat) : Decidable (a.wraps S) := by
  unfold pyarray.wraps; infer_instance

/-- Modelled from the spec: `pybind11::array::strides()` seen as the sequence of the
adapter's strides, one per dimension, in bytes. -/
def pyarray.strides (a : pyarray) : List Nat := a.base.strides

/-- Row-major (C-contiguous) strides of a shape, in elements. -/
def row_major_strides : List Nat → List Nat
  | [] => []
  | _ :: ss => ss.prod :: row_major_strides ss

/-- Modelled from the spec: the constructor `pyarray(shape, strides, ptr, base)`, which
forwards to `pybind11::array`: the new foreign object has rank `shape.size()`, copies that
many extents and strides, and its buffer is at `data` (the aliased `ptr`, or the freshly
allocated storage when `ptr` is null). -/
def pyarray.from_shape_strides (z flags : Nat) (shape strides : List Nat) (data : Nat) :
    pyarray :=
  { base :=
      { nd := shape.length
        dimensions := shape
        strides := (List.range shape.length).map (fun i => strides.getD i 0)
        data := data }
    sizeof_value_type := z
    ExtraFlags := flags }

/-- Modelled from the spec: the constructor `pyarray(shape, ptr, base)`; strides omitted
means row-major strides computed from the shape (in bytes). -/
def pyarray.from_shape (z flags : Nat) (shape : List Nat) (data : Nat) : pyarray :=
  pyarray.from_shape_strides z flags shape ((row_major_strides shape).map (fun s => s * z)) data

/-- Modelled from the spec: the constructor `pyarray(count, ptr, base)`, a 1-D adapter
over `count` elements. -/
def pyarray.from_count (z flags : Nat) (count : Nat) (data : Nat) : pyarray :=
  pyarray.from_shape z flags [count] data

/-! ## Storage iterators, steppers and iterators -/

/-- `pyarray::storage_begin()`. -/
def pyarray.storage_begin (a : pyarray) : Nat := a.base.data

/-- `pyarray::storage_begin() const`. -/
def pyarray.storage_begin_const (a : pyarray) : Nat := a.base.data

/-- `pyarray::storage_end()`. -/
def pyarray.storage_end (w : Nat) (a : pyarray) : Nat := a.storage_begin + a.base.size w

/-- `pyarray::storage_end() const`. -/
def pyarray.storage_end_const (w : Nat) (a : pyarray) : Nat :=
  a.storage_begin_const + a.base.size w

/-- Modelled from the spec: xtensor's `xstepper`, which `pyarray.hpp` only instantiates: a
non-owning reference to the adapter, a storage cursor and the leading-dimension offset. -/
structure xstepper where
  p_c : pyarray
  m_it : Int
  m_offset : Nat
deriving DecidableEq

/-- `pyarray::stepper_begin(shape)`. -/
def pyarray.stepper_begin (w : Nat) (a : pyarray) (shape : List Nat) : xstepper :=
  let offset := size_type.sub w shape.length a.dimension
  ⟨a, a.storage_begin, offset⟩

/-- `pyarray::stepper_end(shape)`. -/
def pyarray.stepper_end (w : Nat) (a : pyarray) (shape : List Nat) : xstepper :=
  let offset := size_type.sub w shape.length a.dimension
  ⟨a, a.storage_end w, offset⟩

/-- `pyarray::stepper_begin(shape) const`. -/
def pyarray.stepper_begin_const (w : Nat) (a : pyarray) (shape : List Nat) : xstepper :=
  let offset := size_type.sub w shape.length a.dimension
  ⟨a, a.storage_begin_const, offset⟩

/-- `pyarray::stepper_end(shape) const`. -/
def pyarray.stepper_end_const (w : Nat) (a : pyarray) (shape : List Nat) : xstepper :=
  let offset := size_type.sub w shape.length a.dimension
  ⟨a, a.storage_end_const w, offset⟩

/-- Modelled from the spec: xtensor's `xiterator`, which `pyarray.hpp` only instantiates:
a stepper paired with the target shape by value, and the current coordinate, which
starts at the origin. -/
structure xiterator where
  m_it : xstepper
  m_shape : List Nat
  m_index : List Nat
deriving DecidableEq

/-- Modelled from the spec: the constructor `xiterator(stepper, shape)`. -/
def xiterator.make (st : xstepper) (shape : List Nat) : xiterator :=
  ⟨st, shape, List.replicate shape.length 0⟩

/-- `pyarray::xbegin(shape)`. -/
def pyarray.xbegin (w : Nat) (a : pyarray) (shape : List Nat) : xiterator :=
  xiterator.make (a.stepper_begin w shape) shape

/-- `pyarray::xend(shape)`. -/
def pyarray.xend (w : Nat) (a : pyarray) (shape : List Nat) : xiterator :=
  xiterator.make (a.stepper_end w shape) shape

/-- `pyarray::xbegin(shape) const`. -/
def pyarray.xbegin_const (w : Nat) (a : pyarray) (shape : List Nat) : xiterator :=
  xiterator.make (a.stepper_begin_const w shape) shape

/-- `pyarray::xend(shape) const`. -/
def pyarray.xend_const (w : Nat) (a : pyarray) (shape : List Nat) : xiterator :=
  xiterator.make (a.stepper_end_const w shape) shape

/-- `pyarray::cxbegin(shape) const`. -/
def pyarray.cxbegin (w : Nat) (a : pyarray) (shape : List Nat) : xiterator :=
  a.xbegin_const w shape

/-- `pyarray::cxend(shape) const`. -/
def pyarray.cxend (w : Nat) (a : pyarray) (shape : List Nat) : xiterator :=
  a.xend_const w shape

/-- `pyarray::begin()`. -/
def pyarray.begin (w : Nat) (a : pyarray) : xiterator := a.xbegin w a.shape

/-- `pyarray::end()`. -/
def pyarray.end_ (w : Nat) (a : pyarray) : xiterator := a.xend w a.shape

/-- `pyarray::begin() const`. -/
def pyarray.begin_const (w : Nat) (a : pyarray) : xiterator := a.xbegin_const w a.shape

/-- `pyarray::end() const`. -/
def pyarray.end_const (w : Nat) (a : pyarray) : xiterator := a.xend_const w a.shape

/-- `pyarray::cbegin() const`. -/
def pyarray.cbegin (w : Nat) (a : pyarray) : xiterator := a.begin_const w

/-- `pyarray::cend() const`. -/
def pyarray.cend (w : Nat) (a : pyarray) : xiterator := a.end_const w

/-! ## Stepping and traversal (xtensor side of the container contract) -/

/-- Modelled from the spec: the adapter's stride for dimension `k` in element units, the
byte stride of the foreign buffer divided by the element size. -/
def pyarray.element_stride (a : pyarray) (k : Nat) : Nat :=
  a.base.strides_at k / a.itemsize

/-- Modelled from the spec: `xstepper::step(dim, n)`, absent from `pyarray.hpp`: a
dimension below the offset is a pure broadcast dimension and the cursor does not move;
otherwise the cursor advances by the adapter's stride for dimension `dim - offset`. -/
def xstepper.step (st : xstepper) (dim n : Nat) : xstepper :=
  if dim < st.m_offset then st
  else { st with m_it := st.m_it + (n * st.p_c.element_stride (dim - st.m_offset) : Nat) }

/-- Modelled from the spec: `xstepper::step_back(dim, n)`, absent from `pyarray.hpp`:
retreating along `dim`, with the same rule as `step`. -/
def xstepper.step_back (st : xstepper) (dim n : Nat) : xstepper :=
  if dim < st.m_offset then st
  else { st with m_it := st.m_it - (n * st.p_c.element_stride (dim - st.m_offset) : Nat) }

/-- Modelled from the spec: `xstepper::to_end()`, absent from `pyarray.hpp`: the end
position is the adapter's one-past-last storage element. -/
def xstepper.to_end (w : Nat) (st : xstepper) : xstepper :=
  { st with m_it := st.p_c.storage_end w }

/-- Modelled from the spec: iterator equality, absent from `pyarray.hpp`: it compares the
underlying stepper position only. -/
def xiterator.equal (x y : xiterator) : Bool := decide (x.m_it.m_it = y.m_it.m_it)

/-- Modelled from the spec: the carry chain of the iterator increment, absent from
`pyarray.hpp`. `advance dim index shape st` advances the coordinates of the dimensions
`dim, dim + 1, ...` (whose current values and extents are `index` and `shape`) by one
position in row-major order, innermost dimension first: a coordinate that can grow steps
the stepper forward along its dimension; a coordinate at its last value rolls over to `0`,
the stepper retreats along that dimension, and the carry moves outwards. The third
component tells whether the carry left the outermost of these dimensions. -/
def xiterator.advance : Nat → List Nat → List Nat → xstepper → List Nat × xstepper × Bool
  | _, [], _, st => ([], st, true)
  | _, i :: is, [], st => (i :: is, st, true)
  | dim, i :: is, s :: ss, st =>
    match xiterator.advance (dim + 1) is ss st with
    | (is', st', true) =>
      if i + 1 ≠ s then ((i + 1) :: is', st'.step dim 1, false)
      else (0 :: is', st'.step_back dim i, true)
    | (is', st', false) => (i :: is', st', false)

/-- Modelled from the spec: `xiterator::operator++`, absent from `pyarray.hpp`: one step of
the row-major traversal of the target shape; when every dimension has rolled over the
stepper is sent to the end position. -/
def xiterator.increment (w : Nat) (it : xiterator) : xiterator :=
  match xiterator.advance 0 it.m_index it.m_shape it.m_it with
  | (idx, st, true) => ⟨st.to_end w, it.m_shape, idx⟩
  | (idx, st, false) => ⟨st, it.m_shape, idx⟩

/-- Modelled from the spec: the traversal `for (it = first; it != last; ++it) visit(*it)`
that a client of the iterators runs: the storage positions visited, or `none` when `fuel`
rounds did not reach `last`. -/
def xiterator.traverse (w : Nat) : Nat → xiterator → xiterator → Option (List Int)
  | 0, _, _ => none
  | fuel + 1, it, last =>
    if it.equal last then some []
    else (xiterator.traverse w fuel (it.increment w) last).map (fun l => it.m_it.m_it :: l)

/-- The adapter's element strides are the row-major strides of its own extents, each byte
stride being the element stride times the element size. -/
def pyarray.row_major (a : pyarray) : Prop :=
  a.base.nd = a.base.dimensions.length ∧
    a.base.strides = (row_major_strides a.base.dimensions).map (fun s => s * a.itemsize)

instance (a : pyarray) : Decidable a.row_major := by
  unfold pyarray.row_major; infer_instance

/-! ## Broadcasting -/

/-- Modelled from the spec: the Broadcast Error condition. -/
inductive broadcast_error where
  | incompatible (adapter_extent target_extent : Nat)
deriving DecidableEq

/-- Modelled from the spec: the merge of aligned extent pairs, both shapes listed from
the innermost dimension outwards. When the adapter extent differs from the target extent,
the target extent must be `1` or the adapter extent must be `1`, and the larger wins;
otherwise the merge is a broadcast error. Leading dimensions that only one of the two
shapes has are taken over as they are. -/
def broadcast_aligned : List Nat → List Nat → Except broadcast_error (List Nat)
  | [], ts => Except.ok ts
  | a :: as, [] => Except.ok (a :: as)
  | a :: as, t :: ts =>
    if a = t then (broadcast_aligned as ts).map (fun r => t :: r)
    else if t = 1 ∨ a = 1 then (broadcast_aligned as ts).map (fun r => max a t :: r)
    else Except.error (broadcast_error.incompatible a t)

/-- Modelled from the spec: `pyarray::broadcast_shape(shape)`, declared in `pyarray.hpp`
but not defined there: merges the adapter's shape into the candidate shape with
trailing-dimension alignment; the result is the updated candidate shape and whether the
merge had to grow its rank (the adapter had more leading dimensions). -/
def pyarray.broadcast_shape (a : pyarray) (shape : List Nat) :
    Except broadcast_error (List Nat × Bool) :=
  (broadcast_aligned a.shape.reverse shape.reverse).map
    (fun r => (r.reverse, decide (shape.length < a.shape.length)))

/-! ## The object converter -/

/-- Modelled from the spec: the state of the foreign runtime that the converter touches:
the reference count of every object, the pending-error indicator, and the history of
calls to the coercion facility and of reference releases. A `PyObject*` is `none` (null)
or `some` object identifier. -/
structure py_runtime where
  refcnt : Nat → Int
  err_pending : Bool
  from_any_calls : List (Nat × Nat × Nat)
  decref_calls : List Nat

/-- Modelled from the spec: the part of `pybind11::detail::npy_api` that the converter
uses: the flag constant and the outcome of the coercion facility for an object, a
requested element type and required flags (`none` is the failure marker). -/
structure npy_api where
  NPY_ENSURE_ARRAY_ : Nat
  coerce : Nat → Nat → Nat → Option Nat

/-- Modelled from the spec: `npy_api::PyArray_FromAny_`, the foreign object coercion
facility. The call is recorded; success returns a new reference to the coerced object,
failure returns null and leaves an error pending in the foreign runtime. -/
def PyArray_FromAny_ (api : npy_api) (op dtype flags : Nat) (rt : py_runtime) :
    Option Nat × py_runtime :=
  let rt1 := { rt with from_any_calls := rt.from_any_calls ++ [(op, dtype, flags)] }
  match api.coerce op dtype flags with
  | some r => (some r, { rt1 with refcnt := Function.update rt1.refcnt r (rt1.refcnt r + 1) })
  | none => (none, { rt1 with err_pending := true })

/-- Modelled from the spec: `PyErr_Clear`, which clears the pending foreign-runtime error. -/
def PyErr_Clear (rt : py_runtime) : py_runtime := { rt with err_pending := false }

/-- Modelled from the spec: `Py_DECREF`, which releases one reference to an object. -/
def Py_DECREF (p : Nat) (rt : py_runtime) : py_runtime :=
  { rt with
    refcnt := Function.update rt.refcnt p (rt.refcnt p - 1)
    decref_calls := rt.decref_calls ++ [p] }

/-- `pyarray::is_non_null(ptr)`. -/
def pyarray.is_non_null (ptr : Option Nat) : Bool := ptr != none

/-- `pyarray::ensure_(ptr)`; `dtype` stands for `pybind11::dtype::of<T>()`. -/
def pyarray.ensure_ (api : npy_api) (dtype ExtraFlags : Nat) (ptr : Option Nat)
    (rt : py_runtime) : Option Nat × py_runtime :=
  match ptr with
  | none => (none, rt)
  | some p =>
    let (result, rt1) := PyArray_FromAny_ api p dtype (api.NPY_ENSURE_ARRAY_ ||| ExtraFlags) rt
    let rt2 := if result.isNone then PyErr_Clear rt1 else rt1
    let rt3 := Py_DECREF p rt2
    (result, rt3)

/-- Modelled from the spec: the handle that `pyarray` inherits from `pybind11::object`,
which holds the member `m_ptr`. -/
structure py_handle where
  m_ptr : Option Nat
deriving DecidableEq

/-- Modelled from the spec: the converting constructor generated by
`PYBIND11_OBJECT_CVT(pyarray, pybind_array, is_non_null, m_ptr = ensure_(m_ptr))`: the
handle is initialised with the incoming pointer and the conversion statement runs. -/
def pyarray.convert (api : npy_api) (dtype ExtraFlags : Nat) (incoming : Option Nat)
    (rt : py_runtime) : py_handle × py_runtime :=
  let h : py_handle := ⟨incoming⟩
  let (p, rt1) := pyarray.ensure_ api dtype ExtraFlags h.m_ptr rt
  ({ h with m_ptr := p }, rt1)

/-- Modelled from the spec: the validity check `check()` generated by
`PYBIND11_OBJECT_CVT`: `m_ptr != nullptr && is_non_null(m_ptr)`. -/
def pyarray.check (h : py_handle) : Bool :=
  h.m_ptr != none && pyarray.is_non_null h.m_ptr

/-! ## Auxiliary notions for the traversal proofs -/

/-- The storage distance covered by one step along dimension `d` of the target shape, for
a stepper over the adapter `a` with leading-dimension offset `off`. -/
def coord_weight (a : pyarray) (off d : Nat) : Nat :=
  if d < off then 0 else a.element_stride (d - off)

/-- The storage distance of the coordinates `idx` of the dimensions `d, d + 1, ...` from
the origin. -/
def weighted_sum (a : pyarray) (off : Nat) : Nat → List Nat → Nat
  | _, [] => 0
  | d, i :: is => i * coord_weight a off d + weighted_sum a off (d + 1) is

/-- The position of a coordinate in the row-major enumeration of a shape. -/
def lex_rank : List Nat → List Nat → Nat
  | [], _ => 0
  | _ :: _, [] => 0
  | i :: is, _ :: ss => i * ss.prod + lex_rank is ss

/-! ## Concrete instances used by the examples below -/

/-- A coercion facility that rejects the object `7` and coerces every other object `p`
into the object `p + 1`. -/
def example_api : npy_api :=
  { NPY_ENSURE_ARRAY_ := 64
    coerce := fun op _ _ => if op = 7 then none else some (op + 1) }

/-- A runtime state with one reference to every object, no pending error and empty
histories. -/
def example_runtime : py_runtime :=
  { refcnt := fun _ => 1
    err_pending := false
    from_any_calls := []
    decref_calls := [] }

/-- An adapter of shape `(2,2)` over 8-byte elements with default (row-major) strides,
whose storage starts at position `100`. -/
def square_adapter : pyarray := pyarray.from_shape 8 16 [2, 2] 100

/-! ## Element access -/

theorem operator_call_of_ne (w : Nat) (a : pyarray) (args : List Nat)
    (h : args.length ≠ a.dimension) :
    a.operator_call w args =
      Except.error (py_error.dim_check "index dimension mismatch" args.length a.dimension) := by
  unfold pyarray.operator_call
  rw [if_pos h]
  rfl

theorem operator_call_of_eq (w : Nat) (a : pyarray) (args : List Nat)
    (h : args.length = a.dimension) :
    a.operator_call w args =
      Except.ok
        (a.pointer_add w a.base.data (a.base.get_byte_offset w 0 args / a.itemsize)) := by
  simp [pyarray.operator_call, h, pybind_array.mutable_data, bind, Except.bind, pure,
    Except.pure]

theorem operator_call_const_of_ne (w : Nat) (a : pyarray) (args : List Nat)
    (h : args.length ≠ a.dimension) :
    a.operator_call_const w args =
      Except.error (py_error.dim_check "index dimension mismatch" args.length a.dimension) := by
  unfold pyarray.operator_call_const
  rw [if_pos h]
  rfl

theorem operator_call_const_of_eq (w : Nat) (a : pyarray) (args : List Nat)
    (h : args.length = a.dimension) :
    a.operator_call_const w args =
      Except.ok
        (a.pointer_add w a.base.data (a.base.get_byte_offset w 0 args / a.itemsize)) := by
  simp [pyarray.operator_call_const, h, pybind_array.data_ptr, bind, Except.bind, pure,
    Except.pure]

/-- C1: for every adapter and index tuple, both overloads of `operator()` raise the
index-dimension-mismatch error exactly when the number of indices differs from
`dimension()`, and return normally exactly when it equals `dimension()`, whatever the index
values are. -/
theorem operator_call_raises_iff (w : Nat) (a : pyarray) (args : List Nat) :
    (a.operator_call w args =
        Except.error (py_error.dim_check "index dimension mismatch" args.length a.dimension)
      ↔ args.length ≠ a.dimension) ∧
    (a.operator_call_const w args =
        Except.error (py_error.dim_check "index dimension mismatch" args.length a.dimension)
      ↔ args.length ≠ a.dimension) ∧
    ((∃ p, a.operator_call w args = Except.ok p) ↔ args.length = a.dimension) ∧
    ((∃ p, a.operator_call_const w args = Except.ok p) ↔ args.length = a.dimension) := by
  by_cases h : args.length = a.dimension
  · simp [operator_call_of_eq w a args h, operator_call_const_of_eq w a args h, h]
  · simp [operator_call_of_ne w a args h, operator_call_const_of_ne w a args h, h]

/-! ## Rank and shape -/

theorem shape_length (a : pyarray) : a.shape.length = a.dimension := by
  simp [pyarray.shape]

theorem shape_of_wraps (a : pyarray) (S : List Nat) (h : a.wraps S) : a.shape = S := by
  obtain ⟨h1, h2, _⟩ := h
  apply List.ext_getElem
  · simp [pyarray.shape, pyarray.dimension, pybind_array.ndim, h1]
  · intro i hi1 hi2
    simp [pyarray.shape, pybind_array.shape_at, h2, List.getD_eq_getElem?_getD,
      List.getElem?_eq_getElem hi2]

theorem from_shape_strides_wraps (z flags : Nat) (S strides : List Nat) (data : Nat) :
    (pyarray.from_shape_strides z flags S strides data).wraps S := by
  simp [pyarray.wraps, pyarray.from_shape_strides]

/-- C4: an adapter wrapping a buffer whose extents are `S` has `dimension() == S.size()`
and `shape() == S`, hence `dimension() == shape().size() == strides().size()`; this holds
in particular for the adapters constructed over a buffer of shape `S` (with explicit
strides, with default strides, and 1-D from a count). -/
theorem dimension_shape_of_wraps (a : pyarray) (S : List Nat) (h : a.wraps S) :
    (a.dimension = S.length ∧ a.shape = S ∧
      a.dimension = a.shape.length ∧ a.shape.length = a.strides.length) ∧
    (∀ z flags strides data,
      (pyarray.from_shape_strides z flags S strides data).wraps S ∧
      (pyarray.from_shape z flags S data).wraps S) ∧
    (∀ z flags count data, (pyarray.from_count z flags count data).wraps [count]) := by
  refine ⟨⟨h.1, shape_of_wraps a S h, (shape_length a).symm, ?_⟩, ?_, ?_⟩
  · rw [shape_length]
    exact h.2.2.symm
  · intro z flags strides data
    exact ⟨from_shape_strides_wraps _ _ _ _ _, from_shape_strides_wraps _ _ _ _ _⟩
  · intro z flags count data
    exact from_shape_strides_wraps _ _ _ _ _

/-- The default-strided adapter built over the shape `(2,3)` has rank 2, shape `(2,3)` and
two strides. -/
theorem dimension_shape_of_wraps_witness :
    (pyarray.from_shape 8 16 [2, 3] 0).wraps [2, 3] ∧
    (pyarray.from_shape 8 16 [2, 3] 0).dimension = 2 ∧
    (pyarray.from_shape 8 16 [2, 3] 0).shape = [2, 3] ∧
    (pyarray.from_shape 8 16 [2, 3] 0).strides.length = 2 := by
  have h : (pyarray.from_shape 8 16 [2, 3] 0).wraps [2, 3] := by decide
  have t := dimension_shape_of_wraps (pyarray.from_shape 8 16 [2, 3] 0) [2, 3] h
  refine ⟨h, t.1.1, t.1.2.1, ?_⟩
  rw [← t.1.2.2.2, ← t.1.2.2.1, t.1.1]
  rfl

/-! ## Steppers -/

theorem size_type_sub_self (w n : Nat) : size_type.sub w n n = 0 := by
  unfold size_type.sub
  have hm : 0 < 2 ^ w := Nat.pos_pow_of_pos w (by decide)
  have hlt : n % 2 ^ w < 2 ^ w := Nat.mod_lt _ hm
  have : n % 2 ^ w + (2 ^ w - n % 2 ^ w) = 2 ^ w := by omega
  rw [this, Nat.mod_self]

theorem size_type_sub_of_le (w x y : Nat) (hxy : y ≤ x) (hx : x < 2 ^ w) :
    size_type.sub w x y = x - y := by
  unfold size_type.sub
  have hy : y < 2 ^ w := lt_of_le_of_lt hxy hx
  rw [Nat.mod_eq_of_lt hx, Nat.mod_eq_of_lt hy]
  have : x + (2 ^ w - y) = (x - y) + 2 ^ w := by omega
  rw [this, Nat.add_mod_right, Nat.mod_eq_of_lt (by omega)]

theorem size_type_sub_of_lt (w x y : Nat) (hxy : x < y) (hy : y < 2 ^ w) :
    size_type.sub w x y = 2 ^ w - (y - x) := by
  unfold size_type.sub
  have hx : x < 2 ^ w := lt_trans hxy hy
  rw [Nat.mod_eq_of_lt hx, Nat.mod_eq_of_lt hy]
  have : x + (2 ^ w - y) = 2 ^ w - (y - x) := by omega
  rw [this, Nat.mod_eq_of_lt (by omega)]

theorem size_type_sub_eq_emod (w x y : Nat) :
    (size_type.sub w x y : Int) = ((x : Int) - (y : Int)) % ((2 : Int) ^ w) := by
  unfold size_type.sub
  have hm : 0 < 2 ^ w := Nat.pos_pow_of_pos w (by decide)
  have hlt : y % 2 ^ w < 2 ^ w := Nat.mod_lt _ hm
  have hx := Nat.div_add_mod x (2 ^ w)
  have hy := Nat.div_add_mod y (2 ^ w)
  have key : ((x % 2 ^ w + (2 ^ w - y % 2 ^ w) : Nat) : Int) =
      ((x : Int) - (y : Int)) + ((2 : Int) ^ w) * (1 + (y / 2 ^ w : Nat) - (x / 2 ^ w : Nat)) := by
    have e1 : ((x % 2 ^ w + (2 ^ w - y % 2 ^ w) : Nat) : Int) =
        (x % 2 ^ w : Nat) + ((2 ^ w : Nat) - (y % 2 ^ w : Nat)) := by
      rw [Nat.cast_add, Nat.cast_sub hlt.le]
    rw [e1]
    have hx' : (x : Int) = ((2 ^ w : Nat) : Int) * (x / 2 ^ w : Nat) + (x % 2 ^ w : Nat) := by
      exact_mod_cast hx.symm
    have hy' : (y : Int) = ((2 ^ w : Nat) : Int) * (y / 2 ^ w : Nat) + (y % 2 ^ w : Nat) := by
      exact_mod_cast hy.symm
    have hp : ((2 ^ w : Nat) : Int) = (2 : Int) ^ w := by norm_cast
    rw [hp] at hx' hy' ⊢
    rw [hx', hy']
    ring
  have hp : ((2 ^ w : Nat) : Int) = (2 : Int) ^ w := by norm_cast
  rw [Int.natCast_mod, key, hp, Int.add_mul_emod_self_left]

/-- C10: in every stepper factory the offset is `shape.size() - dimension()` computed in
`size_type`, that is `(r - n) mod 2 ^ w`; when the target rank `r` is below the adapter
rank `n` the call still returns a stepper, whose offset is `2 ^ w - (n - r)`, at least
`2 ^ w - n`, and larger than every dimension index of the target shape. -/
theorem stepper_offset_modular (w : Nat) (a : pyarray) (shape : List Nat) :
    (((a.stepper_begin w shape).m_offset : Int)
        = ((shape.length : Int) - (a.dimension : Int)) % ((2 : Int) ^ w)) ∧
    (a.stepper_end w shape).m_offset = (a.stepper_begin w shape).m_offset ∧
    (a.stepper_begin_const w shape).m_offset = (a.stepper_begin w shape).m_offset ∧
    (a.stepper_end_const w shape).m_offset = (a.stepper_begin w shape).m_offset ∧
    (a.xbegin w shape).m_it.m_offset = (a.stepper_begin w shape).m_offset ∧
    (a.xend w shape).m_it.m_offset = (a.stepper_begin w shape).m_offset ∧
    (shape.length < a.dimension → a.dimension < 2 ^ w →
      (a.stepper_begin w shape).m_offset = 2 ^ w - (a.dimension - shape.length) ∧
      2 ^ w - a.dimension ≤ (a.stepper_begin w shape).m_offset ∧
      ∀ d, d < shape.length → d < (a.stepper_begin w shape).m_offset) := by
  refine ⟨size_type_sub_eq_emod w _ _, rfl, rfl, rfl, rfl, rfl, ?_⟩
  intro hlt hn
  have h := size_type_sub_of_lt w shape.length a.dimension hlt hn
  have e : (a.stepper_begin w shape).m_offset = size_type.sub w shape.length a.dimension := rfl
  rw [e, h]
  refine ⟨rfl, by omega, ?_⟩
  intro d hd
  omega

/-- A rank-3 adapter stepped over a rank-1 target shape on a 64-bit platform: the offset
is `2 ^ 64 - 2`. -/
theorem stepper_offset_modular_witness :
    ([5] : List Nat).length < (pyarray.from_shape 8 16 [2, 2, 2] 0).dimension ∧
    (pyarray.from_shape 8 16 [2, 2, 2] 0).dimension < 2 ^ 64 ∧
    ((pyarray.from_shape 8 16 [2, 2, 2] 0).stepper_begin 64 [5]).m_offset
      = 2 ^ 64 - ((pyarray.from_shape 8 16 [2, 2, 2] 0).dimension - ([5] : List Nat).length) :=
  ⟨by decide, by decide,
    ((stepper_offset_modular 64 (pyarray.from_shape 8 16 [2, 2, 2] 0) [5]).2.2.2.2.2.2
      (by decide) (by decide)).1⟩

theorem size_foldl (w : Nat) (l : List Nat) (acc : Nat) :
    l.foldl (size_type.mul w) (acc % 2 ^ w) = (acc * l.prod) % 2 ^ w := by
  induction l generalizing acc with
  | nil => simp
  | cons x xs ih =>
    simp only [List.foldl_cons, List.prod_cons]
    have : size_type.mul w (acc % 2 ^ w) x = (acc * x) % 2 ^ w := by
      unfold size_type.mul
      rw [Nat.mod_mul_mod]
    rw [this, ih, Nat.mul_assoc]

theorem size_eq_prod (w : Nat) (a : pyarray) : a.base.size w = a.shape.prod % 2 ^ w := by
  unfold pybind_array.size
  rw [size_foldl]
  simp [pyarray.shape, pyarray.dimension]

/-- C5: for a target shape whose rank is at least `dimension()` (the rank being a
`size_type` value), `stepper_begin(shape)` is positioned at `storage_begin()`,
`stepper_end(shape)` at `storage_begin()` plus the total element count `size()` (the product
of the extents whenever that product is a `size_type` value), both carry the offset
`shape.size() - dimension()`, and the const overloads agree. -/
theorem stepper_begin_end_position (w : Nat) (a : pyarray) (shape : List Nat)
    (hr : a.dimension ≤ shape.length) (hw : shape.length < 2 ^ w) :
    a.stepper_begin w shape = ⟨a, a.storage_begin, shape.length - a.dimension⟩ ∧
    a.stepper_end w shape
      = ⟨a, ((a.storage_begin + a.base.size w : Nat) : Int), shape.length - a.dimension⟩ ∧
    (a.shape.prod < 2 ^ w → a.base.size w = a.shape.prod) ∧
    a.stepper_begin_const w shape = a.stepper_begin w shape ∧
    a.stepper_end_const w shape = a.stepper_end w shape := by
  have ho := size_type_sub_of_le w shape.length a.dimension hr hw
  refine ⟨?_, ?_, ?_, rfl, rfl⟩
  · simp only [pyarray.stepper_begin, ho]
  · simp only [pyarray.stepper_end, pyarray.storage_end, ho]
  · intro hs
    rw [size_eq_prod, Nat.mod_eq_of_lt hs]

/-- The `(2,2)` adapter stepped over the target shape `(3,2,2)`: begin at the first storage
element, end four elements later, offset `1`. -/
theorem stepper_begin_end_position_witness :
    square_adapter.stepper_begin 64 [3, 2, 2] = ⟨square_adapter, 100, 1⟩ ∧
    square_adapter.stepper_end 64 [3, 2, 2] = ⟨square_adapter, 104, 1⟩ := by
  have t := stepper_begin_end_position 64 square_adapter [3, 2, 2] (by decide) (by decide)
  have hs := t.2.2.1 (by decide)
  refine ⟨t.1, ?_⟩
  rw [t.2.1, hs]
  rfl

/-! ## Iterators -/

/-- C6: `begin()`/`end()` are `xbegin(shape())`/`xend(shape())`: the target shape of the
iterator is `shape()` and the offset of its stepper is `0`; `cbegin()`/`cend()` are the
const `begin()`/`end()`, and `cxbegin(s)`/`cxend(s)` are the const `xbegin(s)`/`xend(s)`. -/
theorem begin_end_full_traversal (w : Nat) (a : pyarray) :
    a.begin w = a.xbegin w a.shape ∧ a.end_ w = a.xend w a.shape ∧
    a.begin_const w = a.xbegin_const w a.shape ∧ a.end_const w = a.xend_const w a.shape ∧
    (a.begin w).m_shape = a.shape ∧ (a.end_ w).m_shape = a.shape ∧
    (a.begin w).m_it.m_offset = 0 ∧ (a.end_ w).m_it.m_offset = 0 ∧
    (a.begin_const w).m_it.m_offset = 0 ∧ (a.end_const w).m_it.m_offset = 0 ∧
    a.cbegin w = a.begin_const w ∧ a.cend w = a.end_const w ∧
    (∀ s, a.cxbegin w s = a.xbegin_const w s) ∧ (∀ s, a.cxend w s = a.xend_const w s) := by
  have h0 : size_type.sub w a.shape.length a.dimension = 0 := by
    rw [shape_length]
    exact size_type_sub_self w _
  refine ⟨rfl, rfl, rfl, rfl, rfl, rfl, h0, h0, h0, h0, rfl, rfl, fun _ => rfl, fun _ => rfl⟩

/-! ## The object converter -/

theorem ensure_null (api : npy_api) (dtype flags : Nat) (rt : py_runtime) :
    pyarray.ensure_ api dtype flags none rt = (none, rt) := rfl

theorem ensure_of_failure (api : npy_api) (dtype flags p : Nat) (rt : py_runtime)
    (h : api.coerce p dtype (api.NPY_ENSURE_ARRAY_ ||| flags) = none) :
    pyarray.ensure_ api dtype flags (some p) rt =
      (none, Py_DECREF p (PyErr_Clear
        { rt with
          from_any_calls :=
            rt.from_any_calls ++ [(p, dtype, api.NPY_ENSURE_ARRAY_ ||| flags)]
          err_pending := true })) := by
  simp [pyarray.ensure_, PyArray_FromAny_, h]

theorem ensure_of_success (api : npy_api) (dtype flags p r : Nat) (rt : py_runtime)
    (h : api.coerce p dtype (api.NPY_ENSURE_ARRAY_ ||| flags) = some r) :
    pyarray.ensure_ api dtype flags (some p) rt =
      (some r, Py_DECREF p
        { rt with
          from_any_calls :=
            rt.from_any_calls ++ [(p, dtype, api.NPY_ENSURE_ARRAY_ ||| flags)]
          refcnt := Function.update rt.refcnt r (rt.refcnt r + 1) }) := by
  simp [pyarray.ensure_, PyArray_FromAny_, h]

/-- C2: converting a null foreign object, or a non-null one whose coercion fails, gives a
handle whose validity check is false: `ensure_` returns null in both cases, and after a
failed coercion no foreign-runtime error is pending; when the coercion succeeds the
handle is valid and holds the coerced object. -/
theorem convert_validity (api : npy_api) (dtype flags : Nat) (rt : py_runtime) :
    ((pyarray.ensure_ api dtype flags none rt).1 = none ∧
      pyarray.check (pyarray.convert api dtype flags none rt).1 = false ∧
      (pyarray.convert api dtype flags none rt).2.err_pending = rt.err_pending) ∧
    (∀ p, api.coerce p dtype (api.NPY_ENSURE_ARRAY_ ||| flags) = none →
      (pyarray.ensure_ api dtype flags (some p) rt).1 = none ∧
      pyarray.check (pyarray.convert api dtype flags (some p) rt).1 = false ∧
      (pyarray.convert api dtype flags (some p) rt).2.err_pending = false) ∧
    (∀ p r, api.coerce p dtype (api.NPY_ENSURE_ARRAY_ ||| flags) = some r →
      (pyarray.ensure_ api dtype flags (some p) rt).1 = some r ∧
      (pyarray.convert api dtype flags (some p) rt).1.m_ptr = some r ∧
      pyarray.check (pyarray.convert api dtype flags (some p) rt).1 = true) := by
  refine ⟨⟨rfl, rfl, rfl⟩, ?_, ?_⟩
  · intro p h
    simp [pyarray.convert, ensure_of_failure api dtype flags p rt h, pyarray.check,
      Py_DECREF, PyErr_Clear]
  · intro p r h
    simp [pyarray.convert, ensure_of_success api dtype flags p r rt h, pyarray.check,
      pyarray.is_non_null]

/-- With a coercion facility that rejects object `7` and maps object `5` to object `6`:
converting `7` gives an invalid handle with no error pending, converting `5` a valid
handle on `6`. -/
theorem convert_validity_witness :
    pyarray.check (pyarray.convert example_api 3 16 (some 7) example_runtime).1 = false ∧
    (pyarray.convert example_api 3 16 (some 7) example_runtime).2.err_pending = false ∧
    pyarray.check (pyarray.convert example_api 3 16 (some 5) example_runtime).1 = true ∧
    (pyarray.convert example_api 3 16 (some 5) example_runtime).1.m_ptr = some 6 :=
  ⟨((convert_validity example_api 3 16 example_runtime).2.1 7 (by decide)).2.1,
    ((convert_validity example_api 3 16 example_runtime).2.1 7 (by decide)).2.2,
    ((convert_validity example_api 3 16 example_runtime).2.2 5 6 (by decide)).2.2,
    ((convert_validity example_api 3 16 example_runtime).2.2 5 6 (by decide)).2.1⟩

/-- C9: for a non-null incoming object `ensure_` calls the coercion facility exactly once,
with the flags `NPY_ENSURE_ARRAY_ | ExtraFlags`, and releases the incoming reference
exactly once, whether the coercion succeeds or fails (its reference count ends one below
what the coercion call left); for a null incoming object the runtime state is unchanged:
no coercion call and no release. -/
theorem ensure_calls_and_releases (api : npy_api) (dtype flags : Nat) (rt : py_runtime) :
    (pyarray.ensure_ api dtype flags none rt).2 = rt ∧
    ∀ p,
      (pyarray.ensure_ api dtype flags (some p) rt).2.from_any_calls =
        rt.from_any_calls ++ [(p, dtype, api.NPY_ENSURE_ARRAY_ ||| flags)] ∧
      (pyarray.ensure_ api dtype flags (some p) rt).2.decref_calls = rt.decref_calls ++ [p] ∧
      (pyarray.ensure_ api dtype flags (some p) rt).2.refcnt p =
        (PyArray_FromAny_ api p dtype (api.NPY_ENSURE_ARRAY_ ||| flags) rt).2.refcnt p - 1 ∧
      (pyarray.ensure_ api dtype flags (some p) rt).2.refcnt p =
        rt.refcnt p - 1 +
          (if api.coerce p dtype (api.NPY_ENSURE_ARRAY_ ||| flags) = some p then 1 else 0) := by
  refine ⟨rfl, ?_⟩
  intro p
  cases h : api.coerce p dtype (api.NPY_ENSURE_ARRAY_ ||| flags) with
  | none =>
    simp [ensure_of_failure api dtype flags p rt h, Py_DECREF, PyErr_Clear, PyArray_FromAny_, h]
  | some r =>
    simp only [ensure_of_success api dtype flags p r rt h, Py_DECREF, PyArray_FromAny_, h]
    by_cases hr : r = p
    · subst hr
      simp
    · have hr' : p ≠ r := fun e => hr e.symm
      simp [Function.update_noteq hr', hr]

/-! ## Broadcasting -/

theorem broadcast_aligned_of_compatible (as ts : List Nat) (hlen : as.length = ts.length)
    (hc : ∀ p ∈ List.zip as ts, p.1 = p.2 ∨ p.1 = 1 ∨ p.2 = 1) :
    broadcast_aligned as ts = Except.ok (List.zipWith max as ts) := by
  induction as generalizing ts with
  | nil =>
    cases ts with
    | nil => rfl
    | cons t ts => simp at hlen
  | cons a as ih =>
    cases ts with
    | nil => simp at hlen
    | cons t ts =>
      have hlen' : as.length = ts.length := by simpa using hlen
      have hc' : ∀ p ∈ List.zip as ts, p.1 = p.2 ∨ p.1 = 1 ∨ p.2 = 1 := by
        intro p hp
        exact hc p (by simp [hp])
      have hh : a = t ∨ a = 1 ∨ t = 1 := hc (a, t) (by simp)
      have ih' := ih ts hlen' hc'
      unfold broadcast_aligned
      by_cases hat : a = t
      · subst hat
        simp [ih', Except.map]
      · have h1 : t = 1 ∨ a = 1 := by
          rcases hh with h | h | h
          · exact absurd h hat
          · exact Or.inr h
          · exact Or.inl h
        simp [hat, h1, ih', Except.map]

theorem broadcast_aligned_of_mismatch (as ts : List Nat)
    (hm : ∃ p ∈ List.zip as ts, 1 < p.1 ∧ 1 < p.2 ∧ p.1 ≠ p.2) :
    ∃ e, broadcast_aligned as ts = Except.error e := by
  induction as generalizing ts with
  | nil => simp at hm
  | cons a as ih =>
    cases ts with
    | nil => simp at hm
    | cons t ts =>
      obtain ⟨p, hp, h1, h2, h3⟩ := hm
      rw [List.zip_cons_cons, List.mem_cons] at hp
      unfold broadcast_aligned
      rcases hp with hp | hp
      · subst hp
        simp only at h1 h2 h3
        have n1 : ¬ (t = 1 ∨ a = 1) := by omega
        exact ⟨_, by rw [if_neg h3, if_neg n1]⟩
      · obtain ⟨e, he⟩ := ih ts ⟨p, hp, h1, h2, h3⟩
        by_cases hat : a = t
        · exact ⟨e, by rw [if_pos hat, he]; rfl⟩
        · by_cases n1 : t = 1 ∨ a = 1
          · exact ⟨e, by rw [if_neg hat, if_pos n1, he]; rfl⟩
          · exact ⟨_, by rw [if_neg hat, if_neg n1]⟩

theorem zip_reverse_of_length_eq (as ts : List Nat) (hlen : as.length = ts.length) :
    List.zip as.reverse ts.reverse = (List.zip as ts).reverse := by
  unfold List.zip
  exact (List.reverse_zipWith hlen).symm

/-- C7: `broadcast_shape` merges by trailing-dimension alignment. For an adapter shape and
a target shape of the same rank whose aligned extents are pairwise equal or have one
extent equal to `1`, the target becomes the element-wise maximum and the call returns
false; if some aligned pair has both extents greater than `1` and unequal, the merge is a
broadcast error. An adapter of shape `(3,1,5)` merged into `(1,4,5)` gives `(3,4,5)` and
false; an adapter of shape `(7,5)` merged into `(4,5)` is a broadcast error. -/
theorem broadcast_shape_merge (a : pyarray) (T : List Nat) :
    (a.shape.length = T.length →
      (∀ p ∈ List.zip a.shape T, p.1 = p.2 ∨ p.1 = 1 ∨ p.2 = 1) →
      a.broadcast_shape T = Except.ok (List.zipWith max a.shape T, false)) ∧
    ((∃ p ∈ List.zip a.shape.reverse T.reverse, 1 < p.1 ∧ 1 < p.2 ∧ p.1 ≠ p.2) →
      ∃ e, a.broadcast_shape T = Except.error e) ∧
    (a.shape = [3, 1, 5] → a.broadcast_shape [1, 4, 5] = Except.ok ([3, 4, 5], false)) ∧
    (a.shape = [7, 5] →
      a.broadcast_shape [4, 5] = Except.error (broadcast_error.incompatible 7 4)) := by
  refine ⟨?_, ?_, ?_, ?_⟩
  · intro hlen hc
    have hlen' : a.shape.reverse.length = T.reverse.length := by simpa using hlen
    have hc' : ∀ p ∈ List.zip a.shape.reverse T.reverse, p.1 = p.2 ∨ p.1 = 1 ∨ p.2 = 1 := by
      intro p hp
      rw [zip_reverse_of_length_eq _ _ hlen, List.mem_reverse] at hp
      exact hc p hp
    unfold pyarray.broadcast_shape
    rw [broadcast_aligned_of_compatible _ _ hlen' hc', ← List.reverse_zipWith hlen]
    simp [Except.map, hlen]
  · intro hm
    obtain ⟨e, he⟩ := broadcast_aligned_of_mismatch _ _ hm
    exact ⟨e, by unfold pyarray.broadcast_shape; rw [he]; rfl⟩
  · intro hs
    unfold pyarray.broadcast_shape
    rw [hs]
    rfl
  · intro hs
    unfold pyarray.broadcast_shape
    rw [hs]
    rfl

/-- The two worked examples, obtained from the general statement. -/
theorem broadcast_shape_merge_witness :
    (pyarray.from_shape 8 16 [3, 1, 5] 0).broadcast_shape [1, 4, 5]
      = Except.ok ([3, 4, 5], false) ∧
    (∃ e, (pyarray.from_shape 8 16 [7, 5] 0).broadcast_shape [4, 5] = Except.error e) :=
  ⟨(broadcast_shape_merge (pyarray.from_shape 8 16 [3, 1, 5] 0) [1, 4, 5]).1
      (by decide) (by decide),
    (broadcast_shape_merge (pyarray.from_shape 8 16 [7, 5] 0) [4, 5]).2.1
      ⟨(7, 4), by decide, by decide, by decide, by decide⟩⟩

/-! ## The location returned by element access -/

theorem step_fields (st : xstepper) (d n : Nat) :
    (st.step d n).p_c = st.p_c ∧ (st.step d n).m_offset = st.m_offset ∧
    (st.step d n).m_it = st.m_it + ((n * coord_weight st.p_c st.m_offset d : Nat) : Int) := by
  unfold xstepper.step coord_weight
  by_cases h : d < st.m_offset
  · simp [h]
  · simp [h]

theorem step_back_fields (st : xstepper) (d n : Nat) :
    (st.step_back d n).p_c = st.p_c ∧ (st.step_back d n).m_offset = st.m_offset ∧
    (st.step_back d n).m_it
      = st.m_it - ((n * coord_weight st.p_c st.m_offset d : Nat) : Int) := by
  unfold xstepper.step_back coord_weight
  by_cases h : d < st.m_offset
  · simp [h]
  · simp [h]

theorem lex_rank_replicate_zero (shape : List Nat) (n : Nat) :
    lex_rank (List.replicate n 0) shape = 0 := by
  induction n generalizing shape with
  | zero => simp [lex_rank]
  | succ n ih =>
    cases shape with
    | nil => simp [List.replicate_succ, lex_rank]
    | cons s ss => simp [List.replicate_succ, lex_rank, ih]

theorem forall₂_replicate_zero (shape idx : List Nat)
    (h : List.Forall₂ (fun i s => i < s) idx shape) :
    List.Forall₂ (fun i s => i < s) (List.replicate idx.length 0) shape := by
  induction h with
  | nil => exact List.Forall₂.nil
  | cons hi _ ih => exact List.Forall₂.cons (by omega) ih

theorem lex_rank_lt (idx shape : List Nat) (h : List.Forall₂ (fun i s => i < s) idx shape) :
    lex_rank idx shape < shape.prod := by
  induction h with
  | nil => simp [lex_rank]
  | @cons i s is ss hi _ ih =>
    simp only [lex_rank, List.prod_cons]
    calc i * ss.prod + lex_rank is ss < i * ss.prod + ss.prod := by omega
      _ = (i + 1) * ss.prod := by ring
      _ ≤ s * ss.prod := Nat.mul_le_mul_right _ hi

theorem advance_spec (a : pyarray) (off : Nat) (idx shape : List Nat)
    (h : List.Forall₂ (fun i s => i < s) idx shape) :
    ∀ (d : Nat) (st : xstepper), st.p_c = a → st.m_offset = off →
      (xiterator.advance d idx shape st).2.1.p_c = a ∧
      (xiterator.advance d idx shape st).2.1.m_offset = off ∧
      (xiterator.advance d idx shape st).2.1.m_it + (weighted_sum a off d idx : Int)
        = st.m_it + (weighted_sum a off d (xiterator.advance d idx shape st).1 : Int) ∧
      ((xiterator.advance d idx shape st).2.2 = false →
        List.Forall₂ (fun i s => i < s) (xiterator.advance d idx shape st).1 shape ∧
        lex_rank (xiterator.advance d idx shape st).1 shape = lex_rank idx shape + 1) ∧
      ((xiterator.advance d idx shape st).2.2 = true →
        lex_rank idx shape + 1 = shape.prod ∧
        (xiterator.advance d idx shape st).1 = List.replicate idx.length 0) := by
  induction h with
  | nil =>
    intro d st hp ho
    simp [xiterator.advance, hp, ho, lex_rank]
  | @cons i s is ss hi htl ih =>
    intro d st hp ho
    obtain ⟨ihp, iho, ihpos, ihf, iht⟩ := ih (d + 1) st hp ho
    rcases hadv : xiterator.advance (d + 1) is ss st with ⟨is', st', c⟩
    rw [hadv] at ihp iho ihpos ihf iht
    simp only at ihp iho ihpos ihf iht
    cases c with
    | false =>
      obtain ⟨hr, hk⟩ := ihf rfl
      have e : xiterator.advance d (i :: is) (s :: ss) st = (i :: is', st', false) := by
        simp only [xiterator.advance, hadv]
      rw [e]
      simp only [weighted_sum, lex_rank]
      refine ⟨ihp, iho, ?_, ?_, ?_⟩
      · push_cast at ihpos ⊢
        linarith
      · intro _
        exact ⟨List.Forall₂.cons hi hr, by rw [hk]; ring⟩
      · intro hc
        simp at hc
    | true =>
      obtain ⟨hk, hz⟩ := iht rfl
      by_cases hs : i + 1 ≠ s
      · have e : xiterator.advance d (i :: is) (s :: ss) st
            = ((i + 1) :: is', st'.step d 1, false) := by
          simp only [xiterator.advance, hadv]
          rw [if_pos hs]
        rw [e]
        simp only [weighted_sum, lex_rank]
        obtain ⟨sp, so, sm⟩ := step_fields st' d 1
        rw [ihp, iho] at sm
        refine ⟨sp.trans ihp, so.trans iho, ?_, ?_, ?_⟩
        · rw [sm]
          push_cast at ihpos ⊢
          linarith
        · intro _
          refine ⟨List.Forall₂.cons (by omega) ?_, ?_⟩
          · rw [hz]
            exact forall₂_replicate_zero ss is htl
          · rw [hz, lex_rank_replicate_zero, ← hk]
            ring
        · intro hc
          simp at hc
      · have hs' : i + 1 = s := not_not.mp hs
        have e : xiterator.advance d (i :: is) (s :: ss) st
            = (0 :: is', st'.step_back d i, true) := by
          simp only [xiterator.advance, hadv]
          rw [if_neg hs]
        rw [e]
        simp only [weighted_sum, lex_rank, List.prod_cons]
        obtain ⟨sp, so, sm⟩ := step_back_fields st' d i
        rw [ihp, iho] at sm
        refine ⟨sp.trans ihp, so.trans iho, ?_, ?_, ?_⟩
        · rw [sm]
          push_cast at ihpos ⊢
          linarith
        · intro hc
          simp at hc
        · intro _
          refine ⟨?_, ?_⟩
          · rw [← hs', ← hk]
            ring
          · rw [hz]
            simp [List.replicate_succ]

theorem row_major_strides_length (S : List Nat) : (row_major_strides S).length = S.length := by
  induction S with
  | nil => rfl
  | cons s ss ih => simp [row_major_strides, ih]

theorem row_major_wraps (a : pyarray) (h : a.row_major) : a.wraps a.base.dimensions := by
  refine ⟨h.1, rfl, ?_⟩
  rw [h.2, List.length_map, row_major_strides_length, h.1]

theorem element_stride_row_major (a : pyarray) (h : a.row_major) (hz : 0 < a.itemsize)
    (k : Nat) : a.element_stride k = (row_major_strides a.base.dimensions).getD k 0 := by
  unfold pyarray.element_stride pybind_array.strides_at
  rw [h.2]
  have e : ((row_major_strides a.base.dimensions).map (fun s => s * a.itemsize)).getD k 0
      = (row_major_strides a.base.dimensions).getD k 0 * a.itemsize := by
    have := List.getD_map (l := row_major_strides a.base.dimensions) (d := 0) (n := k)
      (fun s => s * a.itemsize)
    simpa using this
  rw [e, Nat.mul_div_cancel _ hz]

theorem weighted_sum_eq_lex_rank (a : pyarray) (off : Nat) (S : List Nat) :
    ∀ (idx : List Nat) (d : Nat), idx.length = S.length →
      (∀ j, j < S.length → coord_weight a off (d + j) = (row_major_strides S).getD j 0) →
      weighted_sum a off d idx = lex_rank idx S := by
  induction S with
  | nil =>
    intro idx d hl _
    cases idx with
    | nil => rfl
    | cons i is => simp at hl
  | cons s ss ih =>
    intro idx d hl hw
    cases idx with
    | nil => simp at hl
    | cons i is =>
      have hl' : is.length = ss.length := by simpa using hl
      have h0 : coord_weight a off d = ss.prod := by
        have := hw 0 (by simp)
        simpa [row_major_strides] using this
      have hw' : ∀ j, j < ss.length →
          coord_weight a off (d + 1 + j) = (row_major_strides ss).getD j 0 := by
        intro j hj
        have := hw (j + 1) (by simp; omega)
        have e : d + (j + 1) = d + 1 + j := by omega
        rw [e] at this
        simpa [row_major_strides] using this
      simp only [weighted_sum, lex_rank, h0, ih is (d + 1) hl' hw']

theorem weighted_sum_broadcast (a : pyarray) (off : Nat) (S : List Nat)
    (hw : ∀ j, j < S.length → coord_weight a off (off + j) = (row_major_strides S).getD j 0) :
    ∀ (L idx : List Nat) (d : Nat), d + L.length = off →
      List.Forall₂ (fun i s => i < s) idx (L ++ S) →
      weighted_sum a off d idx = lex_rank idx (L ++ S) % S.prod := by
  intro L
  induction L with
  | nil =>
    intro idx d hd hr
    simp only [List.nil_append] at hr ⊢
    have hd' : d = off := by simpa using hd
    subst hd'
    rw [weighted_sum_eq_lex_rank a d S idx d hr.length_eq hw]
    exact (Nat.mod_eq_of_lt (lex_rank_lt idx S hr)).symm
  | cons l L ih =>
    intro idx d hd hr
    cases idx with
    | nil => simp at hr
    | cons i is =>
      simp only [List.cons_append, List.forall₂_cons] at hr
      have hlt : d < off := by
        simp only [List.length_cons] at hd
        omega
      have hd' : d + 1 + L.length = off := by
        simp only [List.length_cons] at hd
        omega
      have h0 : coord_weight a off d = 0 := by simp [coord_weight, hlt]
      have hp : (L ++ S).prod = L.prod * S.prod := List.prod_append
      have hlex : lex_rank (i :: is) (l :: (L ++ S)) = i * (L ++ S).prod + lex_rank is (L ++ S) :=
        rfl
      have hws : weighted_sum a off d (i :: is)
          = i * coord_weight a off d + weighted_sum a off (d + 1) is := rfl
      rw [List.cons_append, hlex, hws, h0, Nat.mul_zero, Nat.zero_add, ih is (d + 1) hd' hr.2,
        hp, ← Nat.mul_assoc, Nat.add_comm, Nat.add_mul_mod_self_right]

theorem range'_map_periodic (α : Type) (g : Nat → α) (n : Nat) (hg : ∀ r, g (r + n) = g r)
    (k : Nat) : (List.range' n k).map g = (List.range' 0 k).map g := by
  have e : List.range' n k = (List.range' 0 k).map (fun r => n + r) := by
    rw [List.map_add_range', Nat.add_zero]
  rw [e, List.map_map]
  apply List.map_congr_left
  intro r _
  simp only [Function.comp]
  rw [Nat.add_comm]
  exact hg r

theorem range'_map_replicate (α : Type) (g : Nat → α) (e : List α) (n : Nat)
    (hlen : e.length = n) (hg : ∀ r, g (r + n) = g r)
    (he : ∀ k (hk : k < e.length), g k = e[k]) (P : Nat) :
    (List.range' 0 (P * n)).map g = (List.replicate P e).flatten := by
  induction P with
  | zero => simp
  | succ P ih =>
    have hsplit : List.range' 0 ((P + 1) * n) = List.range' 0 n ++ List.range' n (P * n) := by
      have := List.range'_append 0 n (P * n) 1
      simp only [Nat.one_mul, Nat.zero_add] at this
      rw [this]
      congr 1
      ring
    have hfirst : (List.range' 0 n).map g = e := by
      apply List.ext_getElem
      · simp [hlen]
      · intro k h1 h2
        simp [he k h2]
    rw [hsplit, List.map_append, hfirst, range'_map_periodic α g n hg, ih,
      List.replicate_succ, List.flatten_cons]

theorem traverse_succ (w fuel : Nat) (it last : xiterator) :
    xiterator.traverse w (fuel + 1) it last =
      if it.equal last then some []
      else (xiterator.traverse w fuel (it.increment w) last).map (fun l => it.m_it.m_it :: l) :=
  rfl

theorem increment_of_carry (w : Nat) (it : xiterator) (idx : List Nat) (st : xstepper)
    (h : xiterator.advance 0 it.m_index it.m_shape it.m_it = (idx, st, true)) :
    it.increment w = ⟨st.to_end w, it.m_shape, idx⟩ := by
  unfold xiterator.increment
  rw [h]

theorem increment_of_no_carry (w : Nat) (it : xiterator) (idx : List Nat) (st : xstepper)
    (h : xiterator.advance 0 it.m_index it.m_shape it.m_it = (idx, st, false)) :
    it.increment w = ⟨st, it.m_shape, idx⟩ := by
  unfold xiterator.increment
  rw [h]

theorem traverse_from (w : Nat) (a : pyarray) (off n : Nat) (T : List Nat) (last : xiterator)
    (hn : 0 < n)
    (hC : ∀ idx, List.Forall₂ (fun i s => i < s) idx T →
      weighted_sum a off 0 idx = lex_rank idx T % n)
    (hlast : last.m_it.m_it = ((a.storage_begin + n : Nat) : Int))
    (hend : a.storage_end w = a.storage_begin + n) :
    ∀ (m fuel : Nat) (idx : List Nat) (st : xstepper), st.p_c = a → st.m_offset = off →
      List.Forall₂ (fun i s => i < s) idx T →
      st.m_it = ((a.storage_begin + weighted_sum a off 0 idx : Nat) : Int) →
      lex_rank idx T + 1 + m = T.prod → m + 1 < fuel →
      xiterator.traverse w fuel ⟨st, T, idx⟩ last
        = some ((List.range' (lex_rank idx T) (m + 1)).map
            (fun r => ((a.storage_begin + r % n : Nat) : Int))) := by
  have hne : ∀ (idx : List Nat) (st : xstepper),
      List.Forall₂ (fun i s => i < s) idx T →
      st.m_it = ((a.storage_begin + weighted_sum a off 0 idx : Nat) : Int) →
      (xiterator.equal ⟨st, T, idx⟩ last = false ∧
        st.m_it = ((a.storage_begin + lex_rank idx T % n : Nat) : Int)) := by
    intro idx st hr hpos
    have hlt : lex_rank idx T % n < n := Nat.mod_lt _ hn
    rw [hC idx hr] at hpos
    refine ⟨?_, hpos⟩
    unfold xiterator.equal
    simp only [decide_eq_false_iff_not]
    rw [hpos, hlast]
    intro e
    have := Int.ofNat.inj e
    omega
  intro m
  induction m with
  | zero =>
    intro fuel idx st hp ho hr hpos hk hf
    obtain ⟨f, rfl⟩ : ∃ f, fuel = f + 2 := ⟨fuel - 2, by omega⟩
    obtain ⟨hneq, hpos'⟩ := hne idx st hr hpos
    obtain ⟨ap, ao, apos, af, at_⟩ := advance_spec a off idx T hr 0 st hp ho
    rw [traverse_succ, hneq]
    simp only [Bool.false_eq_true, if_false]
    rcases hadv : xiterator.advance 0 idx T st with ⟨idx', st', c⟩
    rw [hadv] at ap ao apos af at_
    simp only at ap ao apos af at_
    cases c with
    | false =>
      obtain ⟨hr', hk'⟩ := af rfl
      have := lex_rank_lt idx' T hr'
      omega
    | true =>
      rw [increment_of_carry w ⟨st, T, idx⟩ idx' st' hadv, traverse_succ]
      have heq : xiterator.equal ⟨st'.to_end w, T, idx'⟩ last = true := by
        unfold xiterator.equal xstepper.to_end
        simp only [decide_eq_true_eq]
        rw [hlast, ap, hend]
      rw [heq]
      simp only [if_true, Option.map_some', List.range'_succ, List.range'_zero, List.map_cons,
        List.map_nil, hpos']
  | succ m ih =>
    intro fuel idx st hp ho hr hpos hk hf
    obtain ⟨f, rfl⟩ : ∃ f, fuel = f + 1 := ⟨fuel - 1, by omega⟩
    obtain ⟨hneq, hpos'⟩ := hne idx st hr hpos
    obtain ⟨ap, ao, apos, af, at_⟩ := advance_spec a off idx T hr 0 st hp ho
    rw [traverse_succ, hneq]
    simp only [Bool.false_eq_true, if_false]
    rcases hadv : xiterator.advance 0 idx T st with ⟨idx', st', c⟩
    rw [hadv] at ap ao apos af at_
    simp only at ap ao apos af at_
    cases c with
    | true =>
      obtain ⟨hk', _⟩ := at_ rfl
      omega
    | false =>
      obtain ⟨hr', hk'⟩ := af rfl
      have hst' : st'.m_it = ((a.storage_begin + weighted_sum a off 0 idx' : Nat) : Int) := by
        rw [hpos] at apos
        push_cast at apos ⊢
        linarith
      rw [increment_of_no_carry w ⟨st, T, idx⟩ idx' st' hadv,
        ih f idx' st' ap ao hr' hst' (by omega) (by omega), hk']
      simp only [Option.map_some', hpos']
      rw [List.range'_succ (lex_rank idx T) (m + 1) 1]
      simp only [List.map_cons]

theorem forall₂_zero_of_pos (T : List Nat) (h : ∀ x ∈ T, 0 < x) :
    List.Forall₂ (fun i s => i < s) (List.replicate T.length 0) T := by
  induction T with
  | nil => exact List.Forall₂.nil
  | cons t ts ih =>
    exact List.Forall₂.cons (h t (by simp)) (ih (fun x hx => h x (by simp [hx])))

theorem pos_of_prod_pos (S : List Nat) (h : 0 < S.prod) : ∀ x ∈ S, 0 < x := by
  induction S with
  | nil => simp
  | cons s ss ih =>
    rw [List.prod_cons] at h
    intro x hx
    rw [List.mem_cons] at hx
    rcases hx with rfl | hx
    · exact Nat.pos_of_mul_pos_right h
    · exact ih (Nat.pos_of_mul_pos_left h) x hx

theorem traverse_xbegin_xend (w : Nat) (a : pyarray) (L : List Nat)
    (hrm : a.row_major) (hz : 0 < a.itemsize)
    (hrank : (L ++ a.shape).length < 2 ^ w) (hsize : a.shape.prod < 2 ^ w)
    (hL : ∀ x ∈ L, 0 < x) (fuel : Nat) (hfuel : L.prod * a.shape.prod < fuel) :
    xiterator.traverse w fuel (a.xbegin w (L ++ a.shape)) (a.xend w (L ++ a.shape))
      = some ((List.range' 0 (L.prod * a.shape.prod)).map
          (fun r => ((a.storage_begin + r % a.shape.prod : Nat) : Int))) := by
  have hS : a.shape = a.base.dimensions := shape_of_wraps a _ (row_major_wraps a hrm)
  have hend : a.storage_end w = a.storage_begin + a.shape.prod := by
    simp only [pyarray.storage_end, size_eq_prod, Nat.mod_eq_of_lt hsize]
  have hoff : size_type.sub w (L ++ a.shape).length a.dimension = L.length := by
    rw [size_type_sub_of_le w _ _ (by simp [shape_length]) hrank]
    simp [shape_length]
  have hb : a.xbegin w (L ++ a.shape)
      = ⟨⟨a, (a.storage_begin : Int), L.length⟩, L ++ a.shape,
          List.replicate (L ++ a.shape).length 0⟩ := by
    simp only [pyarray.xbegin, xiterator.make, pyarray.stepper_begin, hoff]
  have hl : (a.xend w (L ++ a.shape)).m_it.m_it
      = ((a.storage_begin + a.shape.prod : Nat) : Int) := by
    simp only [pyarray.xend, xiterator.make, pyarray.stepper_end, hend]
  rcases Nat.eq_zero_or_pos a.shape.prod with h0 | hpos
  · obtain ⟨f, rfl⟩ : ∃ f, fuel = f + 1 := ⟨fuel - 1, by omega⟩
    have heq : xiterator.equal (a.xbegin w (L ++ a.shape)) (a.xend w (L ++ a.shape)) = true := by
      unfold xiterator.equal
      simp only [decide_eq_true_eq]
      rw [hl, hb, h0, Nat.add_zero]
    rw [traverse_succ, heq, h0]
    simp
  · have hT : ∀ x ∈ L ++ a.shape, 0 < x := by
      intro x hx
      rw [List.mem_append] at hx
      rcases hx with hx | hx
      · exact hL x hx
      · exact pos_of_prod_pos a.shape hpos x hx
    have hr0 := forall₂_zero_of_pos (L ++ a.shape) hT
    have hw : ∀ j, j < a.shape.length →
        coord_weight a L.length (L.length + j) = (row_major_strides a.shape).getD j 0 := by
      intro j _
      have hnlt : ¬ (L.length + j < L.length) := by omega
      simp only [coord_weight, hnlt, if_false, Nat.add_sub_cancel_left]
      rw [element_stride_row_major a hrm hz, hS]
    have hC : ∀ idx, List.Forall₂ (fun i s => i < s) idx (L ++ a.shape) →
        weighted_sum a L.length 0 idx = lex_rank idx (L ++ a.shape) % a.shape.prod := by
      intro idx hr
      exact weighted_sum_broadcast a L.length a.shape hw L idx 0 (by simp) hr
    have hprod : (L ++ a.shape).prod = L.prod * a.shape.prod := List.prod_append
    have hLpos : 0 < L.prod * a.shape.prod := by
      rw [← hprod]
      exact lt_of_le_of_lt (Nat.zero_le _) (lex_rank_lt _ _ hr0)
    have hz0 : weighted_sum a L.length 0 (List.replicate (L ++ a.shape).length 0) = 0 := by
      rw [hC _ hr0, lex_rank_replicate_zero, Nat.zero_mod]
    have key := traverse_from w a L.length a.shape.prod (L ++ a.shape)
      (a.xend w (L ++ a.shape)) hpos hC hl hend (L.prod * a.shape.prod - 1) fuel
      (List.replicate (L ++ a.shape).length 0) ⟨a, (a.storage_begin : Int), L.length⟩ rfl rfl hr0
      (by rw [hz0, Nat.add_zero])
      (by rw [lex_rank_replicate_zero, hprod]; omega) (by omega)
    rw [hb, key, lex_rank_replicate_zero]
    have e1 : L.prod * a.shape.prod - 1 + 1 = L.prod * a.shape.prod := by omega
    rw [e1]

/-- C8 (amended): for an adapter with row-major storage `e` over its shape `S`, the
traversal from `begin()` to `end()` terminates and yields exactly `e` in order; and for a
target shape obtained by prepending leading dimensions with positive extents to `S`, the
traversal from `xbegin(T)` to `xend(T)` terminates and yields `e` repeated once per
combination of leading coordinates. A step or a retreat of the stepper along a dimension
below its offset never moves the storage cursor. (The target rank and the element count
are values of `size_type`.) -/
theorem traversal_order {α : Type} (w : Nat) (a : pyarray) (L : List Nat) (mem : Int → α)
    (e : List α) (hrm : a.row_major) (hz : 0 < a.itemsize)
    (hrank : (L ++ a.shape).length < 2 ^ w) (hsize : a.shape.prod < 2 ^ w)
    (hL : ∀ x ∈ L, 0 < x) (hlen : e.length = a.shape.prod)
    (hmem : ∀ k (hk : k < e.length), mem ((a.storage_begin + k : Nat) : Int) = e[k])
    (fuel : Nat) (hfuel : L.prod * a.shape.prod < fuel) :
    (xiterator.traverse w fuel (a.begin w) (a.end_ w)).map (List.map mem) = some e ∧
    (xiterator.traverse w fuel (a.xbegin w (L ++ a.shape)) (a.xend w (L ++ a.shape))).map
        (List.map mem) = some (List.replicate L.prod e).flatten ∧
    (∀ (st : xstepper) (d k : Nat), d < st.m_offset →
      (st.step d k).m_it = st.m_it ∧ (st.step_back d k).m_it = st.m_it) := by
  have hrep : ∀ P : Nat,
      (List.range' 0 (P * a.shape.prod)).map
          (fun r => mem ((a.storage_begin + r % a.shape.prod : Nat) : Int))
        = (List.replicate P e).flatten := by
    intro P
    apply range'_map_replicate α _ e a.shape.prod hlen
    · intro r
      simp only [Nat.add_mod_right]
    · intro k hk
      rw [Nat.mod_eq_of_lt (by omega)]
      exact hmem k hk
  have hLpos : 0 < L.prod := by
    have := forall₂_zero_of_pos L hL
    exact lt_of_le_of_lt (Nat.zero_le _) (lex_rank_lt _ _ this)
  refine ⟨?_, ?_, ?_⟩
  · have hfuel' : ([] : List Nat).prod * a.shape.prod < fuel := by
      simp only [List.prod_nil, Nat.one_mul]
      calc a.shape.prod = 1 * a.shape.prod := (Nat.one_mul _).symm
        _ ≤ L.prod * a.shape.prod := Nat.mul_le_mul_right _ hLpos
        _ < fuel := hfuel
    have hrank' : (([] : List Nat) ++ a.shape).length < 2 ^ w := by
      simp only [List.nil_append]
      simp only [List.length_append] at hrank
      omega
    have t := traverse_xbegin_xend w a [] hrm hz hrank' hsize (by simp) fuel hfuel'
    simp only [List.nil_append] at t
    have hbe : xiterator.traverse w fuel (a.begin w) (a.end_ w)
        = xiterator.traverse w fuel (a.xbegin w a.shape) (a.xend w a.shape) := rfl
    rw [hbe, t, Option.map_some', List.map_map]
    have := hrep 1
    simp only [List.prod_nil, Nat.one_mul, List.replicate_one, List.flatten_cons,
      List.flatten_nil, List.append_nil] at this ⊢
    rw [← this]
    rfl
  · rw [traverse_xbegin_xend w a L hrm hz hrank hsize hL fuel hfuel, Option.map_some',
      List.map_map, ← hrep L.prod]
    rfl
  · intro st d k hd
    simp [xstepper.step, xstepper.step_back, hd]

/-- The `(2,2)` adapter whose storage is `[100,101,102,103]`: `begin()`..`end()` visits it
once, the target shape `(3,2,2)` three times. -/
theorem traversal_order_witness :
    (xiterator.traverse 64 13 (square_adapter.begin 64) (square_adapter.end_ 64)).map
        (List.map (fun p => p)) = some [100, 101, 102, 103] ∧
    (xiterator.traverse 64 13 (square_adapter.xbegin 64 ([3] ++ square_adapter.shape))
        (square_adapter.xend 64 ([3] ++ square_adapter.shape))).map (List.map (fun p => p))
      = some (List.replicate ([3] : List Nat).prod [100, 101, 102, 103]).flatten := by
  have t := traversal_order 64 square_adapter [3] (fun p => p) [100, 101, 102, 103]
    (by decide) (by decide) (by decide) (by decide) (by decide) (by decide) (by decide) 13
    (by decide)
  exact ⟨t.1, t.2.1⟩

/-- C8 as stated fails when a prepended extent is `0`: for the `(2,2)` adapter and the
target shape `(0,2,2)` there is no combination of leading coordinates, so the claimed
sequence is empty, but `xbegin` and `xend` are at different storage positions and the
traversal visits at least the first element. -/
theorem traversal_order_counterexample :
    square_adapter.row_major ∧
    ¬ ∃ fuel,
      (xiterator.traverse 64 fuel (square_adapter.xbegin 64 ([0] ++ square_adapter.shape))
          (square_adapter.xend 64 ([0] ++ square_adapter.shape))).map (List.map (fun p => p))
        = some (List.replicate ([0] : List Nat).prod [100, 101, 102, 103]).flatten := by
  refine ⟨by decide, ?_⟩
  rintro ⟨fuel, h⟩
  cases fuel with
  | zero => simp [xiterator.traverse] at h
  | succ f =>
    have hne : xiterator.equal (square_adapter.xbegin 64 ([0] ++ square_adapter.shape))
        (square_adapter.xend 64 ([0] ++ square_adapter.shape)) = false := by decide
    rw [traverse_succ, hne] at h
    simp only [Bool.false_eq_true, if_false] at h
    cases ht : xiterator.traverse 64 f
        ((square_adapter.xbegin 64 ([0] ++ square_adapter.shape)).increment 64)
        (square_adapter.xend 64 ([0] ++ square_adapter.shape)) with
    | none =>
      rw [ht] at h
      simp at h
    | some l =>
      rw [ht] at h
      simp at h

end xt
